import Mathlib

/-!
Verification of the cross-reference rendering core (`ApiDocsPrinter`).

The data model and the two rendering operations are embedded shallowly from
`src/packages/docgen/src/docgen/ApiDocsPrinter.ts`.  The abstract output
surface (`MarkdownPrinter`) accumulates a list of structural `Event`s; its
link-resolution methods are abstract functions carried in a record and
quantified over in every theorem.  The companion modules `sortSelector.ts`
and `types.ts` are not part of the sources, so the sort helper and the
record shapes are modelled from the specification document, as noted on
each such definition.
-/

/-- Modelled from the spec: `types.ts` is missing from the sources.  A `Link`
is a reference to another entity by identifier, used to detect referenced-by
relationships. -/
structure Link where
  id : String
deriving DecidableEq, Repr

/-- Modelled from the spec: `types.ts` is missing from the sources.  A member
of an interface type: name, kind tag (the string "method" marks a callable
member), source path, documentation lines, code snippet and outgoing links,
as consumed by `ApiDocsPrinter.ts`. -/
structure MemberInfo where
  name : String
  type : String
  path : String
  docs : List String
  code : String
  links : List Link
deriving DecidableEq, Repr

/-- Modelled from the spec: `types.ts` is missing from the sources.  A
dependent (supporting) type of an interface: identifier, name, source path,
documentation lines, code snippet and outgoing links. -/
structure TypeInfo where
  id : String
  name : String
  path : String
  docs : List String
  code : String
  links : List Link
deriving DecidableEq, Repr

/-- Modelled from the spec: `types.ts` is missing from the sources.  An entry
of `ApiDoc.interfaceInfos`: an interface reference with identifier and name
(the spec data model calls these InterfaceRef and gives them both fields;
`ApiDocsPrinter.ts` reads only `.name`). -/
structure InterfaceRef where
  id : String
  name : String
deriving DecidableEq, Repr

/-- Modelled from the spec: `types.ts` is missing from the sources.  An API
entry: identifier, raw name, description and the ordered interface
references it implements. -/
structure ApiDoc where
  id : String
  name : String
  description : String
  interfaceInfos : List InterfaceRef
deriving DecidableEq, Repr

/-- Modelled from the spec: `types.ts` is missing from the sources.  An
interface type: identifier, name, ordered members and ordered dependent
types. -/
structure InterfaceInfo where
  id : String
  name : String
  members : List MemberInfo
  dependentTypes : List TypeInfo
deriving DecidableEq, Repr

/-- A structural output event emitted against the abstract markdown surface.
A paragraph carries its list of text fragments (the surface concatenates
them); `code` carries the snippet of the member or type it renders. -/
inductive Event where
  | header (level : Nat) (text : String) (anchor : Option String)
  | paragraph (fragments : List String)
  | text (line : String)
  | code (snippet : String)
deriving DecidableEq, Repr

/-- The abstract link-resolution surface of `MarkdownPrinter` (`types.ts` is
missing from the sources; the shape follows the calls made by
`ApiDocsPrinter.ts` and the spec section on the output surface).  Only the
string-valued resolvers are modelled here; the emission methods become
`Event`s. -/
structure MarkdownPrinter where
  pageLink : String → String
  srcLinkApi : ApiDoc → String → String
  srcLinkInterface : InterfaceInfo → String
  srcLinkType : TypeInfo → String
  headerLink : String → String → String
  indexLink : String

/-- `apiDisplayName` from `ApiDocsPrinter.ts`: strip one trailing occurrence
of the naming-convention marker, as the regex replace of `/ApiRef$/` by the
empty string does. -/
def apiDisplayName (name : String) : String :=
  if "ApiRef".data.isSuffixOf name.data then
    String.mk (name.data.take (name.data.length - "ApiRef".data.length))
  else name

/-- Case-sensitive lexicographic strict order on character lists, as the
JavaScript `<` operator compares strings. -/
def charListLt : List Char → List Char → Bool
  | _, [] => false
  | [], _ :: _ => true
  | a :: as, b :: bs => if a < b then true else if b < a then false else charListLt as bs

/-- JavaScript string comparison `a < b`: lexicographic on the characters. -/
def strLt (a b : String) : Bool :=
  charListLt a.data b.data

/-- Lexicographic order in its reflexive form: `a` is at most `b` when `b`
is not strictly below `a`. -/
def strLe (a b : String) : Bool :=
  !(strLt b a)

/-- Modelled from the spec: `sortSelector.ts` is missing from the sources.
The Sort Helper builds, from a key-extraction function, a two-argument
comparator ordering ascending by the extracted key (negative, zero, positive
as JavaScript comparators do), using lexicographic order on text. -/
def sortSelector {α : Type} (selector : α → String) (a b : α) : Int :=
  if strLt (selector a) (selector b) then -1
  else if strLt (selector b) (selector a) then 1
  else 0

/-- JavaScript `Array.prototype.sort` with a consistent comparator: a stable
sort by the comparator, modelled by insertion sort (stable, and any stable
sort agrees with it observationally). -/
def jsSort {α : Type} (cmp : α → α → Int) (xs : List α) : List α :=
  xs.insertionSort (fun a b => cmp a b ≤ 0)

/-- The statement `arr.slice().sort(cmp)` of `addInterfaceTypes`:
`Array.prototype.sort` sorts its receiver in place, but here the receiver is
the fresh copy made by `slice()`.  The first component is the value of the
expression (the sorted copy); the second is the original array as left after
the statement. -/
def sliceThenSort {α : Type} (cmp : α → α → Int) (arr : List α) : List α × List α :=
  let copy := arr
  (jsSort cmp copy, arr)

/-- The interface links of one index entry
(`api.interfaceInfos.map(i => ...)` in `printApiIndex`). -/
def typeLinks (printer : MarkdownPrinter) (api : ApiDoc) : List String :=
  api.interfaceInfos.map (fun i => "[" ++ i.name ++ "](" ++ printer.pageLink i.name ++ ")")

/-- The implemented-types paragraph text of one index entry, with the
pluralizing template of `printApiIndex`. -/
def implementedTypesParagraph (printer : MarkdownPrinter) (api : ApiDoc) : String :=
  "Implemented type" ++ (if (typeLinks printer api).length > 1 then "s" else "")
    ++ ": " ++ String.intercalate ", " (typeLinks printer api)

/-- The events emitted for one entry of the index page loop. -/
def apiIndexBlock (printer : MarkdownPrinter) (api : ApiDoc) : List Event :=
  [Event.header 3 (apiDisplayName api.name) (some api.id),
   Event.paragraph [api.description],
   Event.paragraph [implementedTypesParagraph printer api],
   Event.paragraph ["ApiRef: " ++ printer.srcLinkApi api api.name]]

/-- `printApiIndex` from `ApiDocsPrinter.ts`. -/
def printApiIndex (printer : MarkdownPrinter) (apiDocs : List ApiDoc) : List Event :=
  Event.header 1 "Backstage Core Utility APIs" none
    :: Event.paragraph
        ["The following is a list of all Utility APIs defined by `@backstage/core`.",
         "They are available to use by plugins and components, and can be accessed ",
         "using the `useApi` hook, also provided by `@backstage/core`.",
         "For more information, see https://github.com/backstage/backstage/blob/master/docs/api/utility-apis.md."]
    :: apiDocs.flatMap (apiIndexBlock printer)

/-- The implementer links of `printInterface`: filter the collection by
interface name, then build one markdown link per match whose visible label
is the raw entry name and whose target combines the index link with the
header-link fragment of the stripped display name and the identifier. -/
def interfaceApiLinks (printer : MarkdownPrinter) (apiType : InterfaceInfo)
    (apiDocs : List ApiDoc) : List String :=
  (apiDocs.filter (fun ad => ad.interfaceInfos.any (fun i => i.name == apiType.name))).map
    (fun ad =>
      "[" ++ ad.name ++ "]("
        ++ (printer.indexLink ++ printer.headerLink (apiDisplayName ad.name) ad.id) ++ ")")

/-- The single-vs-multi implementer branch of `printInterface`; in the
single branch JavaScript interpolates the array, which joins with a comma. -/
def implementerBlock (apiLinks : List String) : List Event :=
  if apiLinks.length == 1 then
    [Event.paragraph
      ["The following Utility API implements this type: " ++ String.intercalate "," apiLinks]]
  else
    Event.paragraph ["The following Utility APIs implement this type:"]
      :: apiLinks.map (fun link => Event.text ("  - " ++ link))

/-- The events emitted for one member by `addInterfaceMembers`. -/
def memberBlock (member : MemberInfo) : List Event :=
  Event.header 3 (member.name ++ (if member.type == "method" then "()" else ""))
      (some member.path)
    :: member.docs.map Event.text
    ++ [Event.code member.code]

/-- `addInterfaceMembers` from `ApiDocsPrinter.ts`. -/
def addInterfaceMembers (apiType : InterfaceInfo) : List Event :=
  apiType.members.flatMap memberBlock

/-- The union scan of `addInterfaceTypes`: members and dependent types share
the fields read there (name, path, links). -/
structure RefTarget where
  name : String
  path : String
  links : List Link
deriving DecidableEq, Repr

/-- Projection of a member to the fields used by the referenced-by scan. -/
def MemberInfo.asRefTarget (m : MemberInfo) : RefTarget :=
  { name := m.name, path := m.path, links := m.links }

/-- Projection of a dependent type to the fields used by the referenced-by
scan. -/
def TypeInfo.asRefTarget (t : TypeInfo) : RefTarget :=
  { name := t.name, path := t.path, links := t.links }

/-- The spread `[...apiType.members, ...apiType.dependentTypes]` of
`addInterfaceTypes`. -/
def interfaceRefTargets (apiType : InterfaceInfo) : List RefTarget :=
  apiType.members.map MemberInfo.asRefTarget
    ++ apiType.dependentTypes.map TypeInfo.asRefTarget

/-- The `usageLinks` computation of `addInterfaceTypes`: keep the members
and dependent types whose outgoing links carry the identifier of the given
type, and map each to a display link through the header-link fragment. -/
def usageLinksOf (printer : MarkdownPrinter) (apiType : InterfaceInfo)
    (type : TypeInfo) : List String :=
  ((interfaceRefTargets apiType).filter
      (fun member => member.links.any (fun link => link.id == type.id))).map
    (fun m => "[" ++ m.name ++ "](" ++ printer.headerLink m.name m.path ++ ")")

/-- The trailing referenced-by paragraph of `addInterfaceTypes`, emitted only
when the usage-link list is non-empty (JavaScript truthiness of its
length). -/
def referencedByBlock (printer : MarkdownPrinter) (apiType : InterfaceInfo)
    (type : TypeInfo) : List Event :=
  let usageLinks := usageLinksOf printer apiType type
  if usageLinks.length != 0 then
    [Event.paragraph ["Referenced by: " ++ String.intercalate ", " usageLinks ++ "."]]
  else []

/-- The events emitted for one dependent type in the `addInterfaceTypes`
loop. -/
def typeBlock (printer : MarkdownPrinter) (apiType : InterfaceInfo)
    (type : TypeInfo) : List Event :=
  Event.header 3 type.name (some type.path)
    :: type.docs.map Event.text
    ++ [Event.code type.code,
        Event.paragraph ["Defined at " ++ printer.srcLinkType type ++ "."]]
    ++ referencedByBlock printer apiType type

/-- `addInterfaceTypes` from `ApiDocsPrinter.ts`: iterate the dependent
types after the slice-and-stable-sort by name. -/
def addInterfaceTypes (printer : MarkdownPrinter) (apiType : InterfaceInfo) : List Event :=
  ((sliceThenSort (sortSelector TypeInfo.name) apiType.dependentTypes).1).flatMap
    (typeBlock printer apiType)

/-- `printInterface` from `ApiDocsPrinter.ts`. -/
def printInterface (printer : MarkdownPrinter) (apiType : InterfaceInfo)
    (apiDocs : List ApiDoc) : List Event :=
  Event.header 1 apiType.name none
    :: Event.paragraph
        ["The " ++ apiType.name ++ " type is defined at "
          ++ printer.srcLinkInterface apiType ++ "."]
    :: (implementerBlock (interfaceApiLinks printer apiType apiDocs)
        ++ Event.header 2 "Members" none
        :: addInterfaceMembers apiType
        ++ (if apiType.dependentTypes.length != 0 then
              Event.header 2 "Supporting types" none
                :: Event.paragraph
                    ["These types are part of the API declaration, but may not be unique to this API."]
                :: addInterfaceTypes printer apiType
            else []))

/-- The ordered list of entries implementing a type, as the filter of
`printInterface` keeps them (spec: the ordered list of APIs implementing
this type). -/
def implementersOf (apiType : InterfaceInfo) (apiDocs : List ApiDoc) : List ApiDoc :=
  apiDocs.filter (fun ad => ad.interfaceInfos.any (fun i => i.name == apiType.name))

/-- Follows the words of the spec, for comparison with the code: the
implementer set filtered by identifier equality, keeping the entries whose
interface-reference list contains the identifier of the type. -/
def implementersById (apiType : InterfaceInfo) (apiDocs : List ApiDoc) : List ApiDoc :=
  apiDocs.filter (fun ad => ad.interfaceInfos.any (fun i => i.id == apiType.id))

/-- A markdown link with a visible label and a target. -/
def mdLink (label target : String) : String :=
  "[" ++ label ++ "](" ++ target ++ ")"

/-- The text of a header event, if the event is one. -/
def headerTextOf : Event → Option String
  | Event.header _ t _ => some t
  | _ => none

/-- Texts of all emitted headers, in emission order. -/
def headerTexts (es : List Event) : List String :=
  es.filterMap headerTextOf

/-- The text and anchor of a level-3 sub-heading event, if the event is
one. -/
def subHeadingOf : Event → Option (String × Option String)
  | Event.header 3 t a => some (t, a)
  | _ => none

/-- Text and anchor of every level-3 sub-heading, in emission order. -/
def subHeadings (es : List Event) : List (String × Option String) :=
  es.filterMap subHeadingOf

/-- A trivial concrete output surface used for concrete evaluations. -/
def P0 : MarkdownPrinter :=
  { pageLink := fun _ => "", srcLinkApi := fun _ _ => "", srcLinkInterface := fun _ => "",
    srcLinkType := fun _ => "", headerLink := fun _ _ => "", indexLink := "" }

/-- A sample interface type named Foo with identifier t1. -/
def exType : InterfaceInfo :=
  { id := "t1", name := "Foo", members := [], dependentTypes := [] }

/-- A sample entry whose interface reference carries the identifier t1 of
`exType` but the name Bar, different from the name Foo of `exType`. -/
def exApiMismatch : ApiDoc :=
  { id := "x", name := "BarApiRef", description := "d",
    interfaceInfos := [{ id := "t1", name := "Bar" }] }

/-- A sample entry implementing no interface at all. -/
def exApiZero : ApiDoc :=
  { id := "z", name := "ZedApiRef", description := "dz", interfaceInfos := [] }

/-- A sample entry implementing exactly the interface Foo (identifier t1). -/
def exApiFoo : ApiDoc :=
  { id := "x", name := "FooApiRef", description := "d",
    interfaceInfos := [{ id := "t1", name := "Foo" }] }

/-- A sample dependent type named Zebra. -/
def zebraType : TypeInfo :=
  { id := "tz", name := "Zebra", path := "pz", docs := [], code := "cz", links := [] }

/-- A sample dependent type named Apple. -/
def appleType : TypeInfo :=
  { id := "ta", name := "Apple", path := "pa", docs := [], code := "ca", links := [] }

/-- A sample dependent type named Mango. -/
def mangoType : TypeInfo :=
  { id := "tm", name := "Mango", path := "pm", docs := [], code := "cm", links := [] }

theorem charListLt_irrefl : ∀ l : List Char, charListLt l l = false := by
  intro l
  induction l with
  | nil => rfl
  | cons a as ih => simp [charListLt, lt_irrefl, ih]

theorem charListLt_asymm : ∀ as bs : List Char,
    charListLt as bs = true → charListLt bs as = false := by
  intro as
  induction as with
  | nil =>
    intro bs h
    cases bs with
    | nil => exact absurd h (by simp [charListLt])
    | cons b bs => rfl
  | cons a as ih =>
    intro bs h
    cases bs with
    | nil => exact absurd h (by simp [charListLt])
    | cons b bs =>
      rcases lt_trichotomy a b with hab | rfl | hba
      · simp [charListLt, hab, lt_asymm hab]
      · simp only [charListLt, lt_irrefl, if_false] at h ⊢
        exact ih bs h
      · exact absurd h (by simp [charListLt, hba, lt_asymm hba])

theorem charListLt_conn : ∀ as bs : List Char,
    charListLt as bs = false → charListLt bs as = false → as = bs := by
  intro as
  induction as with
  | nil =>
    intro bs h1 h2
    cases bs with
    | nil => rfl
    | cons b bs => exact absurd h1 (by simp [charListLt])
  | cons a as ih =>
    intro bs h1 h2
    cases bs with
    | nil => exact absurd h2 (by simp [charListLt])
    | cons b bs =>
      rcases lt_trichotomy a b with hab | rfl | hba
      · exact absurd h1 (by simp [charListLt, hab])
      · have h1' : charListLt as bs = false := by
          simpa [charListLt, lt_irrefl] using h1
        have h2' : charListLt bs as = false := by
          simpa [charListLt, lt_irrefl] using h2
        rw [ih bs h1' h2']
      · exact absurd h2 (by simp [charListLt, hba])

theorem charListLt_trans : ∀ as bs cs : List Char,
    charListLt as bs = true → charListLt bs cs = true → charListLt as cs = true := by
  intro as
  induction as with
  | nil =>
    intro bs cs h1 h2
    cases bs with
    | nil => exact absurd h1 (by simp [charListLt])
    | cons b bs =>
      cases cs with
      | nil => exact absurd h2 (by simp [charListLt])
      | cons c cs => simp [charListLt]
  | cons a as ih =>
    intro bs cs h1 h2
    cases bs with
    | nil => exact absurd h1 (by simp [charListLt])
    | cons b bs =>
      cases cs with
      | nil => exact absurd h2 (by simp [charListLt])
      | cons c cs =>
        rcases lt_trichotomy a b with hab | rfl | hba
        · rcases lt_trichotomy b c with hbc | rfl | hcb
          · simp [charListLt, lt_trans hab hbc]
          · simp [charListLt, hab]
          · exact absurd h2 (by simp [charListLt, hcb, lt_asymm hcb])
        · rcases lt_trichotomy a c with hac | rfl | hca
          · simp [charListLt, hac]
          · have h1' : charListLt as bs = true := by
              simpa [charListLt, lt_irrefl] using h1
            have h2' : charListLt bs cs = true := by
              simpa [charListLt, lt_irrefl] using h2
            simpa [charListLt, lt_irrefl] using ih bs cs h1' h2'
          · exact absurd h2 (by simp [charListLt, hca, lt_asymm hca])
        · exact absurd h1 (by simp [charListLt, hba, lt_asymm hba])

theorem charListLt_negtrans : ∀ as bs cs : List Char,
    charListLt bs as = false → charListLt cs bs = false → charListLt cs as = false := by
  intro as bs cs h1 h2
  cases h3 : charListLt cs as with
  | false => rfl
  | true =>
    cases h4 : charListLt bs cs with
    | false =>
      have hcb : cs = bs := charListLt_conn cs bs h2 h4
      rw [hcb] at h3
      rw [h1] at h3
      exact Bool.noConfusion h3
    | true =>
      have h5 := charListLt_trans bs cs as h4 h3
      rw [h1] at h5
      exact Bool.noConfusion h5

theorem strLt_asymm (a b : String) : strLt a b = true → strLt b a = false :=
  charListLt_asymm a.data b.data

theorem strLt_conn (a b : String) : strLt a b = false → strLt b a = false → a = b :=
  fun h1 h2 => String.ext (charListLt_conn a.data b.data h1 h2)

theorem strLt_negtrans (a b c : String) :
    strLt b a = false → strLt c b = false → strLt c a = false :=
  charListLt_negtrans a.data b.data c.data

theorem strLt_irrefl (a : String) : strLt a a = false :=
  charListLt_irrefl a.data

theorem sortSelector_nonpos_iff {α : Type} (sel : α → String) (a b : α) :
    sortSelector sel a b ≤ 0 ↔ strLt (sel b) (sel a) = false := by
  unfold sortSelector
  split_ifs with h1 h2
  · exact iff_of_true (by norm_num) (strLt_asymm _ _ h1)
  · refine iff_of_false (by norm_num) ?_
    simp [h2]
  · refine iff_of_true le_rfl ?_
    simpa using h2

/-- Claim C2 (counterexample): on a raw name that already ends in the
marker, appending one more marker is not collapsed: the derivation strips
exactly one occurrence, so the two sides of the claimed equation differ and
the result can still end in the marker. -/
theorem C2_counterexample :
    apiDisplayName ("FooApiRef" ++ "ApiRef") ≠ apiDisplayName "FooApiRef"
  ∧ "ApiRef".data.isSuffixOf (apiDisplayName ("FooApiRef" ++ "ApiRef")).data = true := by
  constructor
  · decide
  · decide

/-- Claim C2 (amended): for every raw name that does not itself end in the
naming-convention marker, display-name derivation strips one appended
marker, fixes the bare name, and yields a result with no trailing marker. -/
theorem C2_display_name (name : String)
    (h : "ApiRef".data.isSuffixOf name.data = false) :
    apiDisplayName (name ++ "ApiRef") = apiDisplayName name
  ∧ apiDisplayName name = name
  ∧ "ApiRef".data.isSuffixOf (apiDisplayName (name ++ "ApiRef")).data = false := by
  have hnot : ¬ ("ApiRef".data.isSuffixOf name.data = true) := by simp [h]
  have h1 : apiDisplayName name = name := by
    unfold apiDisplayName
    rw [if_neg hnot]
  have hdata : (name ++ "ApiRef").data = name.data ++ "ApiRef".data :=
    String.data_append ..
  have hsuf : "ApiRef".data.isSuffixOf (name ++ "ApiRef").data = true := by
    rw [List.isSuffixOf_iff_suffix, hdata]
    exact List.suffix_append _ _
  have h2 : apiDisplayName (name ++ "ApiRef") = name := by
    unfold apiDisplayName
    rw [if_pos hsuf, hdata, List.length_append]
    have h6 : ("ApiRef".data).length = 6 := rfl
    rw [h6, Nat.add_sub_cancel, List.take_left]
  refine ⟨by rw [h1, h2], h1, ?_⟩
  rw [h2]
  exact h

/-- Claim C2 witness at the concrete marker-free name Foo. -/
theorem C2_display_name_witness :
    "ApiRef".data.isSuffixOf "Foo".data = false
  ∧ (apiDisplayName ("Foo" ++ "ApiRef") = apiDisplayName "Foo"
     ∧ apiDisplayName "Foo" = "Foo"
     ∧ "ApiRef".data.isSuffixOf (apiDisplayName ("Foo" ++ "ApiRef")).data = false) :=
  ⟨by decide, C2_display_name "Foo" (by decide)⟩

/-- Claim C3 (counterexample): an entry implementing zero interfaces renders
the singular phrasing, while the claim demands plural phrasing for any count
other than one. -/
theorem C3_counterexample :
    implementedTypesParagraph P0 exApiZero = "Implemented type: "
  ∧ exApiZero.interfaceInfos.length ≠ 1 := by
  constructor
  · decide
  · decide

/-- Claim C3 (amended): the implemented-types paragraph of an index entry
uses the singular phrasing exactly when the entry implements at most one
interface (zero or one) and the plural phrasing exactly when it implements
more than one; the paragraph is emitted on the index page for every listed
entry. -/
theorem C3_pluralization (printer : MarkdownPrinter) (api : ApiDoc) :
    (api.interfaceInfos.length ≤ 1 →
      implementedTypesParagraph printer api
        = "Implemented type: " ++ String.intercalate ", " (typeLinks printer api))
  ∧ (1 < api.interfaceInfos.length →
      implementedTypesParagraph printer api
        = "Implemented types: " ++ String.intercalate ", " (typeLinks printer api))
  ∧ (∀ apiDocs, api ∈ apiDocs →
      Event.paragraph [implementedTypesParagraph printer api]
        ∈ printApiIndex printer apiDocs) := by
  have hlen : (typeLinks printer api).length = api.interfaceInfos.length := by
    simp [typeLinks]
  refine ⟨fun h => ?_, fun h => ?_, fun apiDocs hmem => ?_⟩
  · unfold implementedTypesParagraph
    rw [if_neg (by rw [hlen]; omega)]
    exact rfl
  · unfold implementedTypesParagraph
    rw [if_pos (by rw [hlen]; omega)]
    exact rfl
  · refine List.mem_cons_of_mem _ (List.mem_cons_of_mem _ ?_)
    exact List.mem_flatMap.mpr ⟨api, hmem, by simp [apiIndexBlock]⟩

/-- Claim C3 witness at the concrete zero-interface entry. -/
theorem C3_pluralization_witness :
    exApiZero.interfaceInfos.length ≤ 1
  ∧ implementedTypesParagraph P0 exApiZero
      = "Implemented type: " ++ String.intercalate ", " (typeLinks P0 exApiZero) :=
  ⟨by decide, (C3_pluralization P0 exApiZero).1 (by decide)⟩

/-- Claim C4 (confirmed): the implementer branches are decided by the
implementer-link count alone, the single branch exactly at count one and the
multi branch at every other count; at count zero the multi branch renders
the introductory sentence with no items, and in every case the output is a
well-defined event list. -/
theorem C4_branching (printer : MarkdownPrinter) (apiType : InterfaceInfo)
    (apiDocs : List ApiDoc) :
    ((interfaceApiLinks printer apiType apiDocs).length = 1 →
      implementerBlock (interfaceApiLinks printer apiType apiDocs)
        = [Event.paragraph
            ["The following Utility API implements this type: "
              ++ String.intercalate "," (interfaceApiLinks printer apiType apiDocs)]])
  ∧ ((interfaceApiLinks printer apiType apiDocs).length ≠ 1 →
      implementerBlock (interfaceApiLinks printer apiType apiDocs)
        = Event.paragraph ["The following Utility APIs implement this type:"]
          :: (interfaceApiLinks printer apiType apiDocs).map
              (fun link => Event.text ("  - " ++ link)))
  ∧ (interfaceApiLinks printer apiType apiDocs = [] →
      implementerBlock (interfaceApiLinks printer apiType apiDocs)
        = [Event.paragraph ["The following Utility APIs implement this type:"]]) := by
  refine ⟨fun h => ?_, fun h => ?_, fun h => ?_⟩
  · unfold implementerBlock
    rw [if_pos (by simp [h])]
  · unfold implementerBlock
    rw [if_neg (by simp only [beq_iff_eq]; exact h)]
  · rw [h]
    rfl

/-- Claim C4 witness: a zero-implementer page takes the multi branch with an
empty item list. -/
theorem C4_branching_witness :
    interfaceApiLinks P0 exType [] = []
  ∧ implementerBlock (interfaceApiLinks P0 exType [])
      = [Event.paragraph ["The following Utility APIs implement this type:"]] :=
  ⟨rfl, (C4_branching P0 exType []).2.2 rfl⟩

/-- Claim C1 (counterexample): an entry whose interface reference carries
the identifier of the type but a different name renders no implementer
link, while the identifier-filtered set of the claim contains the entry. -/
theorem C1_counterexample :
    (interfaceApiLinks P0 exType [exApiMismatch]).length = 0
  ∧ (implementersById exType [exApiMismatch]).length = 1 := by
  constructor
  · decide
  · decide

/-- Claim C1 (amended): the implementer links of the interface page equal
exactly one markdown link per entry whose interface-reference list contains
the NAME of the type (name equality, not identifier equality), in input
order; the filter is a sublist of the input, so the relative order among
matches is preserved. -/
theorem C1_implementer_links (printer : MarkdownPrinter) (apiType : InterfaceInfo)
    (apiDocs : List ApiDoc) :
    interfaceApiLinks printer apiType apiDocs
      = (apiDocs.filter
            (fun ad => decide (apiType.name ∈ ad.interfaceInfos.map InterfaceRef.name))).map
          (fun ad => mdLink ad.name
            (printer.indexLink ++ printer.headerLink (apiDisplayName ad.name) ad.id))
  ∧ (implementersOf apiType apiDocs).Sublist apiDocs := by
  constructor
  · have hf : ∀ ad ∈ apiDocs,
        (ad.interfaceInfos.any fun i => i.name == apiType.name)
          = decide (apiType.name ∈ ad.interfaceInfos.map InterfaceRef.name) := by
      intro ad _
      rw [Bool.eq_iff_iff]
      simp [List.any_eq_true, List.mem_map, beq_iff_eq]
    unfold interfaceApiLinks mdLink
    rw [List.filter_congr hf]
  · exact List.filter_sublist apiDocs

/-- Claim C5 (confirmed): the referenced-by links of a dependent type equal
exactly one link per member or dependent type of the enclosing interface
whose outgoing links contain the identifier of that type, and the
referenced-by paragraph is omitted precisely when that set is empty. -/
theorem C5_referenced_by (printer : MarkdownPrinter) (apiType : InterfaceInfo)
    (type : TypeInfo) :
    usageLinksOf printer apiType type
      = ((interfaceRefTargets apiType).filter
            (fun m => decide (type.id ∈ m.links.map Link.id))).map
          (fun m => mdLink m.name (printer.headerLink m.name m.path))
  ∧ (referencedByBlock printer apiType type = []
      ↔ usageLinksOf printer apiType type = []) := by
  constructor
  · have hf : ∀ m ∈ interfaceRefTargets apiType,
        (m.links.any fun link => link.id == type.id)
          = decide (type.id ∈ m.links.map Link.id) := by
      intro m _
      rw [Bool.eq_iff_iff]
      simp [List.any_eq_true, List.mem_map, beq_iff_eq]
    unfold usageLinksOf mdLink
    rw [List.filter_congr hf]
  · show (if (usageLinksOf printer apiType type).length != 0 then
        [Event.paragraph
          ["Referenced by: "
            ++ String.intercalate ", " (usageLinksOf printer apiType type) ++ "."]]
      else ([] : List Event)) = []
      ↔ usageLinksOf printer apiType type = []
    split_ifs with hc
    · refine iff_of_false (by simp) fun h => ?_
      rw [h] at hc
      simp at hc
    · refine iff_of_true rfl ?_
      have hz : (usageLinksOf printer apiType type).length = 0 := by simpa using hc
      exact List.length_eq_zero.mp hz

/-- Claim C10 (confirmed): every implementer link carries the raw entry name
as its visible label while the stripped display name occurs only in the
header-link fragment of the target, in the multi branch as a list item per
implementer and in the single branch embedded in the sentence. -/
theorem C10_link_labels (printer : MarkdownPrinter) (apiType : InterfaceInfo)
    (apiDocs : List ApiDoc) :
    interfaceApiLinks printer apiType apiDocs
      = (implementersOf apiType apiDocs).map
          (fun ad => mdLink ad.name
            (printer.indexLink ++ printer.headerLink (apiDisplayName ad.name) ad.id))
  ∧ (∀ ad ∈ implementersOf apiType apiDocs,
      (interfaceApiLinks printer apiType apiDocs).length ≠ 1 →
        Event.text ("  - " ++ mdLink ad.name
            (printer.indexLink ++ printer.headerLink (apiDisplayName ad.name) ad.id))
          ∈ implementerBlock (interfaceApiLinks printer apiType apiDocs))
  ∧ (∀ ad, implementersOf apiType apiDocs = [ad] →
      implementerBlock (interfaceApiLinks printer apiType apiDocs)
        = [Event.paragraph
            ["The following Utility API implements this type: "
              ++ mdLink ad.name
                  (printer.indexLink
                    ++ printer.headerLink (apiDisplayName ad.name) ad.id)]]) := by
  have heq : interfaceApiLinks printer apiType apiDocs
      = (implementersOf apiType apiDocs).map
          (fun ad => mdLink ad.name
            (printer.indexLink ++ printer.headerLink (apiDisplayName ad.name) ad.id)) := rfl
  refine ⟨heq, fun ad hmem hne => ?_, fun ad hsingle => ?_⟩
  · unfold implementerBlock
    rw [if_neg (by simp only [beq_iff_eq]; exact hne)]
    refine List.mem_cons_of_mem _ ?_
    refine List.mem_map.mpr ⟨mdLink ad.name
      (printer.indexLink ++ printer.headerLink (apiDisplayName ad.name) ad.id), ?_, rfl⟩
    rw [heq]
    exact List.mem_map.mpr ⟨ad, hmem, rfl⟩
  · have hl : interfaceApiLinks printer apiType apiDocs
        = [mdLink ad.name
            (printer.indexLink ++ printer.headerLink (apiDisplayName ad.name) ad.id)] := by
      rw [heq, hsingle]
      rfl
    rw [hl]
    rfl

/-- Claim C10 witness: the spec round-trip scenario with one implementer,
whose rendered label is the raw unstripped name. -/
theorem C10_link_labels_witness :
    implementersOf exType [exApiFoo] = [exApiFoo]
  ∧ implementerBlock (interfaceApiLinks P0 exType [exApiFoo])
      = [Event.paragraph
          ["The following Utility API implements this type: "
            ++ mdLink exApiFoo.name
                (P0.indexLink ++ P0.headerLink (apiDisplayName exApiFoo.name) exApiFoo.id)]] :=
  ⟨by decide, (C10_link_labels P0 exType [exApiFoo]).2.2 exApiFoo (by decide)⟩

theorem jsSort_filter_stable {α : Type} (cmp : α → α → Int) (p : α → Bool)
    (hp : ∀ a b, p a = true → p b = true → cmp a b ≤ 0) (xs : List α) :
    (jsSort cmp xs).filter p = xs.filter p := by
  have hperm : ((jsSort cmp xs).filter p).Perm (xs.filter p) :=
    (List.perm_insertionSort _ xs).filter p
  have hpw : (xs.filter p).Pairwise (fun a b => cmp a b ≤ 0) :=
    List.pairwise_of_forall_mem_list
      (fun a ha b hb => hp a b (List.of_mem_filter ha) (List.of_mem_filter hb))
  have hsub : (xs.filter p).Sublist (jsSort cmp xs) :=
    List.sublist_insertionSort hpw (List.filter_sublist xs)
  have hsub2 : (xs.filter p).Sublist ((jsSort cmp xs).filter p) := by
    have h2 := hsub.filter p
    rwa [List.filter_filter,
      (show (fun a => p a && p a) = p from funext fun a => Bool.and_self (p a))] at h2
  exact (hsub2.eq_of_length hperm.length_eq.symm).symm

theorem headerTexts_typeBlock (printer : MarkdownPrinter) (apiType : InterfaceInfo)
    (t : TypeInfo) : headerTexts (typeBlock printer apiType t) = [t.name] := by
  have hdocs : List.filterMap headerTextOf (t.docs.map Event.text) = [] := by
    rw [List.filterMap_map]
    exact List.filterMap_eq_nil_iff.mpr fun a _ => rfl
  have href : List.filterMap headerTextOf (referencedByBlock printer apiType t) = [] := by
    simp only [referencedByBlock]
    split
    · rfl
    · rfl
  simp only [headerTexts, typeBlock, List.filterMap_cons, List.filterMap_append,
    headerTextOf, hdocs, href]
  rfl

theorem headerTexts_flatMap_typeBlock (printer : MarkdownPrinter)
    (apiType : InterfaceInfo) :
    ∀ ts : List TypeInfo,
      headerTexts (ts.flatMap (typeBlock printer apiType)) = ts.map TypeInfo.name := by
  intro ts
  induction ts with
  | nil => rfl
  | cons t ts ih =>
    rw [List.flatMap_cons, List.map_cons]
    calc headerTexts (typeBlock printer apiType t ++ ts.flatMap (typeBlock printer apiType))
        = headerTexts (typeBlock printer apiType t)
            ++ headerTexts (ts.flatMap (typeBlock printer apiType)) :=
          List.filterMap_append _ _ _
      _ = [t.name] ++ ts.map TypeInfo.name := by
          rw [headerTexts_typeBlock, ih]
      _ = t.name :: ts.map TypeInfo.name := rfl

/-- Claim C6 (confirmed): the dependent types are rendered in ascending
case-sensitive lexicographic order of their names; the rendered sequence is
a permutation of the input, equal-name runs keep their input order
(stability), the emitted per-type headers follow the sorted order, and the
Zebra, Apple, Mango scenario renders as Apple, Mango, Zebra. -/
theorem C6_dependent_type_order (printer : MarkdownPrinter) (apiType : InterfaceInfo) :
    (jsSort (sortSelector TypeInfo.name) apiType.dependentTypes).Pairwise
        (fun a b => strLe a.name b.name = true)
  ∧ (jsSort (sortSelector TypeInfo.name) apiType.dependentTypes).Perm
      apiType.dependentTypes
  ∧ (∀ n : String,
      (jsSort (sortSelector TypeInfo.name) apiType.dependentTypes).filter
          (fun x => x.name == n)
        = apiType.dependentTypes.filter (fun x => x.name == n))
  ∧ headerTexts (addInterfaceTypes printer apiType)
      = (jsSort (sortSelector TypeInfo.name) apiType.dependentTypes).map TypeInfo.name
  ∧ jsSort (sortSelector TypeInfo.name) [zebraType, appleType, mangoType]
      = [appleType, mangoType, zebraType] := by
  haveI instTotal : IsTotal TypeInfo (fun a b => sortSelector TypeInfo.name a b ≤ 0) := by
    refine ⟨fun x y => ?_⟩
    rw [sortSelector_nonpos_iff, sortSelector_nonpos_iff]
    cases h : strLt y.name x.name with
    | false => exact Or.inl rfl
    | true => exact Or.inr (strLt_asymm _ _ h)
  haveI instTrans : IsTrans TypeInfo (fun a b => sortSelector TypeInfo.name a b ≤ 0) := by
    refine ⟨fun x y z h1 h2 => ?_⟩
    rw [sortSelector_nonpos_iff] at h1 h2 ⊢
    exact strLt_negtrans _ _ _ h1 h2
  refine ⟨?_, List.perm_insertionSort _ _, fun n => ?_, ?_, by decide⟩
  · have hs := List.sorted_insertionSort
      (fun a b => sortSelector TypeInfo.name a b ≤ 0) apiType.dependentTypes
    refine List.Pairwise.imp (fun hab => ?_) hs
    simp only [strLe, Bool.not_eq_true']
    exact (sortSelector_nonpos_iff TypeInfo.name _ _).mp hab
  · refine jsSort_filter_stable _ _ (fun a b ha hb => ?_) _
    have hA : a.name = n := eq_of_beq ha
    have hB : b.name = n := eq_of_beq hb
    simp [sortSelector, hA, hB, strLt_irrefl]
  · exact headerTexts_flatMap_typeBlock printer apiType _

/-- Claim C8 (confirmed): the sort step of the page renderer operates on a
copy: after the slice-and-sort statement the dependent-type list of the
interface is the unchanged input, and the sorted copy that the renderer
iterates is a rearrangement of it; every other access of the renderer is a
read, so the input model is never mutated. -/
theorem C8_no_mutation (apiType : InterfaceInfo) :
    (sliceThenSort (sortSelector TypeInfo.name) apiType.dependentTypes).2
      = apiType.dependentTypes
  ∧ ((sliceThenSort (sortSelector TypeInfo.name) apiType.dependentTypes).1).Perm
      apiType.dependentTypes :=
  ⟨rfl, List.perm_insertionSort _ _⟩

theorem subHeadings_flatMap_apiIndexBlock (printer : MarkdownPrinter) :
    ∀ ds : List ApiDoc,
      subHeadings (ds.flatMap (apiIndexBlock printer))
        = ds.map (fun api => (apiDisplayName api.name, some api.id)) := by
  intro ds
  induction ds with
  | nil => rfl
  | cons d ds ih =>
    rw [List.flatMap_cons, List.map_cons]
    calc subHeadings (apiIndexBlock printer d ++ ds.flatMap (apiIndexBlock printer))
        = subHeadings (apiIndexBlock printer d)
            ++ subHeadings (ds.flatMap (apiIndexBlock printer)) :=
          List.filterMap_append _ _ _
      _ = [(apiDisplayName d.name, some d.id)]
            ++ ds.map (fun api => (apiDisplayName api.name, some api.id)) := by
          rw [ih]
          rfl
      _ = (apiDisplayName d.name, some d.id)
            :: ds.map (fun api => (apiDisplayName api.name, some api.id)) := rfl

/-- Claim C7 (confirmed): for a non-empty collection the index page carries
exactly one level-3 sub-heading per entry, in input order, titled with the
stripped display name and anchored by the entry identifier. -/
theorem C7_index_headings (printer : MarkdownPrinter) (apiDocs : List ApiDoc)
    (_h : apiDocs ≠ []) :
    subHeadings (printApiIndex printer apiDocs)
      = apiDocs.map (fun api => (apiDisplayName api.name, some api.id)) :=
  subHeadings_flatMap_apiIndexBlock printer apiDocs

/-- Claim C7 witness at a one-entry collection. -/
theorem C7_index_headings_witness :
    ([exApiFoo] : List ApiDoc) ≠ []
  ∧ subHeadings (printApiIndex P0 [exApiFoo])
      = [exApiFoo].map (fun api => (apiDisplayName api.name, some api.id)) :=
  ⟨by decide, C7_index_headings P0 [exApiFoo] (by decide)⟩

theorem header_not_mem_implementerBlock (links : List String) (lvl : Nat) (s : String)
    (a : Option String) : Event.header lvl s a ∉ implementerBlock links := by
  unfold implementerBlock
  split
  · simp
  · simp [List.mem_cons, List.mem_map]

theorem header2_not_mem_addInterfaceMembers (apiType : InterfaceInfo) (s : String)
    (a : Option String) : Event.header 2 s a ∉ addInterfaceMembers apiType := by
  intro hmem
  rw [addInterfaceMembers, List.mem_flatMap] at hmem
  obtain ⟨m, _, hx⟩ := hmem
  simp [memberBlock, List.mem_cons, List.mem_append, List.mem_map] at hx

/-- Claim C9 (confirmed): the Members section heading is emitted on every
interface page, also when the member list is empty, while the Supporting
types section heading is emitted exactly when the dependent-type list is
non-empty. -/
theorem C9_section_headings (printer : MarkdownPrinter) (apiType : InterfaceInfo)
    (apiDocs : List ApiDoc) :
    Event.header 2 "Members" none ∈ printInterface printer apiType apiDocs
  ∧ (Event.header 2 "Supporting types" none ∈ printInterface printer apiType apiDocs
      ↔ apiType.dependentTypes ≠ []) := by
  constructor
  · unfold printInterface
    refine List.mem_cons_of_mem _ (List.mem_cons_of_mem _ ?_)
    refine List.mem_append_left _ ?_
    exact List.mem_append_right _ (List.mem_cons_self _ _)
  · constructor
    · intro hmem hnil
      unfold printInterface at hmem
      rw [if_neg (by simp [hnil])] at hmem
      rcases List.mem_cons.mp hmem with h1 | hmem
      · exact absurd h1 (by simp)
      rcases List.mem_cons.mp hmem with h2 | hmem
      · exact absurd h2 (by simp)
      rcases List.mem_append.mp hmem with hmem | h6
      · rcases List.mem_append.mp hmem with h3 | hmem
        · exact header_not_mem_implementerBlock _ _ _ _ h3
        rcases List.mem_cons.mp hmem with h4 | h5
        · exact absurd h4 (by decide)
        · exact header2_not_mem_addInterfaceMembers _ _ _ h5
      · simp at h6
    · intro hne
      have hc : (apiType.dependentTypes.length != 0) = true := by
        cases hd : apiType.dependentTypes with
        | nil => exact absurd hd hne
        | cons x xs => rfl
      unfold printInterface
      refine List.mem_cons_of_mem _ (List.mem_cons_of_mem _ ?_)
      refine List.mem_append_right _ ?_
      rw [if_pos hc]
      exact List.mem_cons_self _ _
